import Mathlib

/-!
# Verification of the prediction-tracker store (`src/sync_predictions.py`)

Shallow embedding of the `PredictionSync` class.  Modelling conventions:

* Python strings are `String`, except record ids, on which the code performs
  a `startswith` test: ids are `List Char` and `startswith` is embedded
  structurally below.
* Calendar dates (always rendered in the fixed format `YYYY-MM-DD`) are
  modelled by their day numbers (`ℤ`, days since an arbitrary epoch); this
  representation is order-isomorphic to the lexicographic order on the
  fixed-format ISO strings stored in the JSON document.
* `datetime.now()` is modelled by the components the code consumes: the
  current year (used only for id generation), the current day number, and
  the seconds elapsed since midnight (relevant because `list_pending`
  subtracts a full `datetime`, not a date).
* Python's true division on the numbers occurring in `show_stats` is
  modelled exactly over `ℚ`.
* The persisted JSON document is modelled by the `saved` field of `Store`;
  `_save_predictions` copies the in-memory list there.
-/

namespace PredictionTracker

/-- The components of `datetime.now()` that the code consumes. -/
structure Now where
  year : ℕ
  day : ℤ
  sec : ℕ
deriving DecidableEq

/-- One prediction record, with the exact fields written by `add_prediction`. -/
structure Prediction where
  id : List Char
  prediction : String
  domain : String
  confidence : ℤ
  created_date : ℤ
  due_date : ℤ
  verification : String
  falsification : String
  sources : List String
  outcome : String
  evaluated_date : Option ℤ
  outcome_notes : Option String
deriving DecidableEq

/-- The store state: the in-memory list `self.predictions` together with the
contents of the persisted document `predictions.json`. -/
structure Store where
  predictions : List Prediction
  saved : List Prediction
deriving DecidableEq

/-- `_save_predictions`: rewrite the whole persisted document from memory. -/
def save (s : Store) : Store :=
  { s with saved := s.predictions }

/-- Python's `str.startswith`, embedded structurally on character lists:
`startswith s pre` is `True` iff `pre` is an initial segment of `s`. -/
def startswith : List Char → List Char → Bool
  | _, [] => true
  | [], _ :: _ => false
  | c :: s, d :: pre => c == d && startswith s pre

/-- Little-endian decimal digits of `n`, with explicit fuel (the fuel is
always instantiated with `n` itself, which suffices). -/
def decDigitsAux : ℕ → ℕ → List ℕ
  | 0, _ => []
  | _ + 1, 0 => []
  | fuel + 1, n + 1 => (n + 1) % 10 :: decDigitsAux fuel ((n + 1) / 10)

/-- The character for one decimal digit. -/
def decDigitChar : ℕ → Char
  | 0 => '0' | 1 => '1' | 2 => '2' | 3 => '3' | 4 => '4'
  | 5 => '5' | 6 => '6' | 7 => '7' | 8 => '8' | _ => '9'

/-- Python's `str(n)` / `f"{n}"` for a natural number: decimal digits, most
significant first. -/
def decRepr (n : ℕ) : List Char :=
  if n = 0 then ['0'] else ((decDigitsAux n n).map decDigitChar).reverse

/-- Python's `f"{n:03d}"`: the decimal rendering left-padded with `'0'` to
width 3. -/
def pad3 (n : ℕ) : List Char :=
  List.replicate (3 - (decRepr n).length) '0' ++ decRepr n

/-- The numeric value of a decimal digit character (used only to state that
the decimal rendering is invertible, hence injective). -/
def decCharVal (c : Char) : ℕ :=
  c.toNat - 48

/-- Left inverse of the padded decimal rendering: read a digit string back
as a number (leading zeros are harmless). -/
def unpad (cs : List Char) : ℕ :=
  Nat.ofDigits 10 ((cs.map decCharVal).reverse)

/-- The characters of `f"PRED-{year}"`, the prefix counted by `_generate_id`. -/
def yearTag (year : ℕ) : List Char :=
  ['P', 'R', 'E', 'D', '-'] ++ decRepr year

/-- `_generate_id`: `PRED-<year>-<count:03d>` where `count` is 1 + the number
of existing records whose id starts with `PRED-<year>`. -/
def generate_id (preds : List Prediction) (year : ℕ) : List Char :=
  let count := (preds.filter (fun p => startswith p.id (yearTag year))).length + 1
  yearTag year ++ '-' :: pad3 count

/-- The id `PRED-<year>-<k:03d>` (the shape produced by `generate_id`). -/
def mkId (year k : ℕ) : List Char :=
  yearTag year ++ '-' :: pad3 k

/-- The arguments of one `add_prediction` call, together with the value of
`datetime.now()` during that call. -/
structure AddArgs where
  prediction : String
  domain : String
  confidence : ℤ
  due_days : ℤ
  verification : String
  falsification : String
  sources : Option (List String)
  now : Now
deriving DecidableEq

/-- The record built by `add_prediction`; `sources or []` maps both `None`
and the empty list to `[]` and keeps any other list. -/
def newPrediction (preds : List Prediction) (a : AddArgs) : Prediction :=
  { id := generate_id preds a.now.year
    prediction := a.prediction
    domain := a.domain
    confidence := a.confidence
    created_date := a.now.day
    due_date := a.now.day + a.due_days
    verification := a.verification
    falsification := a.falsification
    sources := match a.sources with
      | none => []
      | some l => if l = [] then [] else l
    outcome := "pending"
    evaluated_date := none
    outcome_notes := none }

/-- `add_prediction`: build the record, append it, save, return its id. -/
def add_prediction (s : Store) (a : AddArgs) : Store × List Char :=
  let p := newPrediction s.predictions a
  (save { s with predictions := s.predictions ++ [p] }, p.id)

/-- Iterated `add_prediction` (the returned ids are read off the store). -/
def addMany (s : Store) : List AddArgs → Store
  | [] => s
  | a :: rest => addMany (add_prediction s a).1 rest

/-- The loop body of `evaluate_prediction`: update the first record whose id
matches, leaving everything after it untouched; `none` when no record
matches. -/
def evalGo (pid : List Char) (outcome : String) (notes : Option String)
    (now : Now) : List Prediction → Option (List Prediction)
  | [] => none
  | p :: ps =>
    if p.id = pid then
      some ({ p with
                outcome := outcome
                evaluated_date := some now.day
                outcome_notes := notes } :: ps)
    else
      (evalGo pid outcome notes now ps).map (p :: ·)

/-- `evaluate_prediction`: on the first matching record set `outcome`,
`evaluated_date`, `outcome_notes`, save and return `True`; otherwise leave
the store untouched and return `False`. -/
def evaluate_prediction (s : Store) (pid : List Char) (outcome : String)
    (notes : Option String) (now : Now) : Store × Bool :=
  match evalGo pid outcome notes now s.predictions with
  | some ps => (save { s with predictions := ps }, true)
  | none => (s, false)

/-- The sort key comparison used by `pending.sort(key=lambda x: x['due_date'])`. -/
def leDue (a b : Prediction) : Bool :=
  a.due_date ≤ b.due_date

/-- The pending records sorted ascending by due date.  Python's `list.sort`
is a stable sort; `List.mergeSort` is the stable sort in Lean. -/
def pendingSorted (preds : List Prediction) : List Prediction :=
  (preds.filter (fun p => p.outcome == "pending")).mergeSort leDue

/-- `(due - datetime.now()).days`: the `timedelta` day count, which floors
the difference of the two timestamps (in seconds) over 86400. -/
def days_left (due : ℤ) (now : Now) : ℤ :=
  (due * 86400 - (now.day * 86400 + (now.sec : ℤ))) / 86400

/-- The urgency annotation computed in the `list_pending` loop. -/
def statusTag (p : Prediction) (now : Now) : String :=
  let d := days_left p.due_date now
  if d < 0 then " [OVERDUE]"
  else if d = 0 then " [DUE TODAY]"
  else if d ≤ 2 then " [DUE IN " ++ toString d ++ "d]"
  else ""

/-- `list_pending`: the pending records sorted by due date, each with its
urgency annotation. -/
def list_pending (preds : List Prediction) (now : Now) :
    List (Prediction × String) :=
  (pendingSorted preds).map (fun p => (p, statusTag p now))

/-- The aggregate values computed (and printed) by `show_stats`. -/
structure Stats where
  total : ℕ
  evaluated : ℕ
  correct : ℕ
  incorrect : ℕ
  pending : ℕ
  accuracy : ℚ
  brier_score : ℚ
deriving DecidableEq

/-- One summand of the Brier accumulation loop:
`(confidence / 100 - outcome_val) ** 2`. -/
def brierTerm (p : Prediction) : ℚ :=
  ((p.confidence : ℚ) / 100 - (if p.outcome == "correct" then 1 else 0)) ^ 2

/-- `show_stats`: counts, accuracy and Brier score; both divisions are
guarded by non-emptiness of the evaluated sublist. -/
def show_stats (preds : List Prediction) : Stats :=
  let evaluated := preds.filter (fun p => p.outcome != "pending")
  let correct := preds.filter (fun p => p.outcome == "correct")
  let incorrect := preds.filter (fun p => p.outcome == "incorrect")
  let pending := preds.filter (fun p => p.outcome == "pending")
  { total := preds.length
    evaluated := evaluated.length
    correct := correct.length
    incorrect := incorrect.length
    pending := pending.length
    accuracy :=
      if evaluated.isEmpty then 0
      else (correct.length : ℚ) / evaluated.length * 100
    brier_score :=
      if evaluated.isEmpty then 0
      else ((evaluated.map brierTerm).sum) / evaluated.length }

/-! Concrete fixtures used to instantiate the theorems below. -/

/-- A sample pending record. -/
def sampleRec : Prediction :=
  { id := "PRED-2025-001".toList, prediction := "statement", domain := "Security",
    confidence := 80, created_date := 20200, due_date := 20254,
    verification := "v", falsification := "f", sources := [],
    outcome := "pending", evaluated_date := none, outcome_notes := none }

/-- A sample evaluated-correct record (confidence 80). -/
def sampleCorrect : Prediction :=
  { sampleRec with
      outcome := "correct"
      evaluated_date := some 20210 }

/-- A sample evaluated-incorrect record (confidence 60). -/
def sampleIncorrect : Prediction :=
  { sampleRec with
      id := "PRED-2025-002".toList
      confidence := 60
      outcome := "incorrect"
      evaluated_date := some 20210 }

/-- A sample clock reading: noon (43200 seconds past midnight) of day 20254. -/
def sampleNoon : Now :=
  { year := 2025, day := 20254, sec := 43200 }

/-- A sample pending record due the day after `sampleNoon`. -/
def sampleDueTomorrow : Prediction :=
  { sampleRec with
      id := "PRED-2025-003".toList
      due_date := 20255 }

/-- Sample `add_prediction` arguments. -/
def sampleArgs : AddArgs :=
  { prediction := "p", domain := "Diplomacy", confidence := 70, due_days := 5,
    verification := "v", falsification := "g", sources := none,
    now := { year := 2025, day := 20000, sec := 0 } }

/-! Helper lemmas about the evaluation loop. -/

/-- `evalGo` finds nothing when no record carries the sought id. -/
theorem evalGo_eq_none (pid : List Char) (outcome : String) (notes : Option String)
    (now : Now) : ∀ ps : List Prediction, (∀ p ∈ ps, p.id ≠ pid) →
    evalGo pid outcome notes now ps = none := by
  intro ps
  induction ps with
  | nil => intro _; rfl
  | cons p ps ih =>
    intro h
    simp only [evalGo, if_neg (h p (List.mem_cons_self p ps)),
      ih (fun q hq => h q (List.mem_cons_of_mem p hq)), Option.map_none']

/-- `evalGo` updates exactly the first matching record. -/
theorem evalGo_eq_some (pid : List Char) (outcome : String) (notes : Option String)
    (now : Now) (p : Prediction) (hp : p.id = pid) :
    ∀ (l1 l2 : List Prediction), (∀ q ∈ l1, q.id ≠ pid) →
    evalGo pid outcome notes now (l1 ++ p :: l2)
      = some (l1 ++ { p with
                        outcome := outcome
                        evaluated_date := some now.day
                        outcome_notes := notes } :: l2) := by
  intro l1
  induction l1 with
  | nil => intro l2 _; simp [evalGo, hp]
  | cons q l1 ih =>
    intro l2 h
    simp only [List.cons_append, evalGo, List.append_eq,
      if_neg (h q (List.mem_cons_self q l1)),
      ih l2 (fun r hr => h r (List.mem_cons_of_mem q hr)), Option.map_some']

/-- `evalGo` never changes the number of records. -/
theorem evalGo_length (pid : List Char) (outcome : String) (notes : Option String)
    (now : Now) : ∀ (ps ps' : List Prediction),
    evalGo pid outcome notes now ps = some ps' → ps'.length = ps.length := by
  intro ps
  induction ps with
  | nil => intro ps' h; exact absurd h (by simp [evalGo])
  | cons p ps ih =>
    intro ps' h
    by_cases hid : p.id = pid
    · rw [evalGo, if_pos hid] at h
      cases h
      simp
    · rw [evalGo, if_neg hid] at h
      match hgo : evalGo pid outcome notes now ps with
      | none => rw [hgo] at h; exact absurd h (by simp)
      | some tail =>
        rw [hgo] at h
        cases h
        simp [ih tail hgo]

/-! ## Claim theorems -/

/-- C4: evaluating an id that matches no record returns failure and leaves
both the in-memory collection and the persisted document unchanged (the
operation is a total function, so it cannot raise). -/
theorem c4_evaluate_not_found (s : Store) (pid : List Char) (outcome : String)
    (notes : Option String) (now : Now)
    (h : ∀ p ∈ s.predictions, p.id ≠ pid) :
    evaluate_prediction s pid outcome notes now = (s, false) := by
  unfold evaluate_prediction
  rw [evalGo_eq_none pid outcome notes now s.predictions h]

/-- Witness for C4 at a concrete store and unknown id. -/
theorem c4_evaluate_not_found_witness :
    (∀ p ∈ (Store.mk [sampleRec] [sampleRec]).predictions,
        p.id ≠ "PRED-2024-001".toList)
    ∧ evaluate_prediction (Store.mk [sampleRec] [sampleRec])
        "PRED-2024-001".toList "correct" none sampleNoon
      = (Store.mk [sampleRec] [sampleRec], false) :=
  ⟨by decide,
   c4_evaluate_not_found (Store.mk [sampleRec] [sampleRec])
     "PRED-2024-001".toList "correct" none sampleNoon (by decide)⟩

/-- C5: evaluating an existing pending record (identified uniquely by its id)
returns success, sets `outcome`, `evaluated_date` = the current date and
`outcome_notes` = the notes, leaves every other field of that record and all
other records unchanged, and persists the result. -/
theorem c5_evaluate_found (s : Store) (outcome : String) (notes : Option String)
    (now : Now) (l1 l2 : List Prediction) (p : Prediction)
    (hmem : s.predictions = l1 ++ p :: l2)
    (hfirst : ∀ q ∈ l1, q.id ≠ p.id)
    (hpending : p.outcome = "pending") :
    evaluate_prediction s p.id outcome notes now
      = ({ predictions := l1 ++ { p with
                                    outcome := outcome
                                    evaluated_date := some now.day
                                    outcome_notes := notes } :: l2,
           saved := l1 ++ { p with
                              outcome := outcome
                              evaluated_date := some now.day
                              outcome_notes := notes } :: l2 }, true) := by
  unfold evaluate_prediction
  rw [hmem, evalGo_eq_some p.id outcome notes now p rfl l1 l2 hfirst]
  rfl

/-- Witness for C5: a two-record store, evaluating the first record. -/
theorem c5_evaluate_found_witness :
    ((Store.mk [sampleRec, sampleDueTomorrow] [sampleRec, sampleDueTomorrow]).predictions
        = [] ++ sampleRec :: [sampleDueTomorrow]
      ∧ (∀ q ∈ ([] : List Prediction), q.id ≠ sampleRec.id)
      ∧ sampleRec.outcome = "pending")
    ∧ evaluate_prediction (Store.mk [sampleRec, sampleDueTomorrow] [sampleRec, sampleDueTomorrow])
        sampleRec.id "correct" (some "happened") sampleNoon
      = ({ predictions := [] ++ { sampleRec with
                                    outcome := "correct"
                                    evaluated_date := some sampleNoon.day
                                    outcome_notes := some "happened" } :: [sampleDueTomorrow],
           saved := [] ++ { sampleRec with
                              outcome := "correct"
                              evaluated_date := some sampleNoon.day
                              outcome_notes := some "happened" } :: [sampleDueTomorrow] }, true) :=
  ⟨⟨rfl, by decide, rfl⟩,
   c5_evaluate_found (Store.mk [sampleRec, sampleDueTomorrow] [sampleRec, sampleDueTomorrow])
     "correct" (some "happened") sampleNoon [] [sampleDueTomorrow] sampleRec
     rfl (by decide) rfl⟩

/-- C6: statistics of the empty store are all zero; in the model both
divisions are guarded by the non-emptiness test on the evaluated sublist,
exactly as in the code, so no division by zero is performed. -/
theorem c6_stats_empty :
    show_stats [] =
      { total := 0, evaluated := 0, correct := 0, incorrect := 0, pending := 0,
        accuracy := 0, brier_score := 0 } := rfl

/-- C8: `add_prediction` appends exactly one record at the end of the
collection (leaving all existing records unchanged), persists, and the new
record has outcome `pending`, no evaluated date, no notes, creation date =
the current date, due date = the current date plus the requested offset, the
caller's text fields, and the returned id is the record's id. -/
theorem c8_add_appends (s : Store) (a : AddArgs) :
    ∃ p : Prediction,
      (add_prediction s a).1.predictions = s.predictions ++ [p]
      ∧ (add_prediction s a).1.saved = s.predictions ++ [p]
      ∧ (add_prediction s a).2 = p.id
      ∧ p.outcome = "pending" ∧ p.evaluated_date = none ∧ p.outcome_notes = none
      ∧ p.created_date = a.now.day ∧ p.due_date = a.now.day + a.due_days
      ∧ p.prediction = a.prediction ∧ p.domain = a.domain
      ∧ p.confidence = a.confidence ∧ p.verification = a.verification
      ∧ p.falsification = a.falsification :=
  ⟨newPrediction s.predictions a, rfl, rfl, rfl, rfl, rfl, rfl, rfl, rfl,
   rfl, rfl, rfl, rfl, rfl⟩

/-- C9: the evaluation loop never changes the number of records, and when
several records share the sought id it rewrites only the first one in
storage order, leaving the later duplicates (and the order) unchanged. -/
theorem c9_evaluate_first_match (s : Store) (pid : List Char) (outcome : String)
    (notes : Option String) (now : Now) (l1 l2 : List Prediction) (p : Prediction)
    (hmem : s.predictions = l1 ++ p :: l2)
    (hfirst : ∀ q ∈ l1, q.id ≠ pid) (hp : p.id = pid) :
    ((evaluate_prediction s pid outcome notes now).1.predictions
        = l1 ++ { p with
                    outcome := outcome
                    evaluated_date := some now.day
                    outcome_notes := notes } :: l2)
    ∧ ∀ t : Store, (evaluate_prediction t pid outcome notes now).1.predictions.length
        = t.predictions.length := by
  constructor
  · unfold evaluate_prediction
    rw [hmem, evalGo_eq_some pid outcome notes now p hp l1 l2 hfirst]
    rfl
  · intro t
    unfold evaluate_prediction
    match hgo : evalGo pid outcome notes now t.predictions with
    | none => rfl
    | some ps => exact evalGo_length pid outcome notes now t.predictions ps hgo

/-- Witness for C9: a store with two records sharing one id; only the first
is rewritten. -/
theorem c9_evaluate_first_match_witness :
    ((Store.mk [sampleRec, sampleRec] [sampleRec, sampleRec]).predictions
        = [] ++ sampleRec :: [sampleRec]
      ∧ (∀ q ∈ ([] : List Prediction), q.id ≠ sampleRec.id)
      ∧ sampleRec.id = sampleRec.id)
    ∧ ((evaluate_prediction (Store.mk [sampleRec, sampleRec] [sampleRec, sampleRec])
          sampleRec.id "incorrect" none sampleNoon).1.predictions
        = [] ++ { sampleRec with
                    outcome := "incorrect"
                    evaluated_date := some sampleNoon.day
                    outcome_notes := none } :: [sampleRec])
    ∧ ∀ t : Store, (evaluate_prediction t sampleRec.id "incorrect" none sampleNoon).1.predictions.length
        = t.predictions.length := by
  have h := c9_evaluate_first_match (Store.mk [sampleRec, sampleRec] [sampleRec, sampleRec])
    sampleRec.id "incorrect" none sampleNoon [] [sampleRec] sampleRec rfl (by decide) rfl
  exact ⟨⟨rfl, by decide, rfl⟩, h.1, h.2⟩

/-- C10: an absent `sources` argument is stored as the empty list, and a
non-empty caller-supplied list is stored as given. -/
theorem c10_sources_default (s : Store) (a : AddArgs) (l : List String) (hl : l ≠ []) :
    (∃ p, (add_prediction s { a with sources := none }).1.predictions
            = s.predictions ++ [p] ∧ p.sources = [])
    ∧ (∃ p, (add_prediction s { a with sources := some l }).1.predictions
            = s.predictions ++ [p] ∧ p.sources = l) := by
  refine ⟨⟨newPrediction s.predictions { a with sources := none }, rfl, rfl⟩,
          ⟨newPrediction s.predictions { a with sources := some l }, rfl, ?_⟩⟩
  simp [newPrediction, hl]

/-- Witness for C10 at a concrete store and a one-element source list. -/
theorem c10_sources_default_witness :
    (["src"] ≠ ([] : List String))
    ∧ ((∃ p, (add_prediction (Store.mk [] []) { sampleArgs with sources := none }).1.predictions
            = ([] : List Prediction) ++ [p] ∧ p.sources = [])
      ∧ (∃ p, (add_prediction (Store.mk [] []) { sampleArgs with sources := some ["src"] }).1.predictions
            = ([] : List Prediction) ++ [p] ∧ p.sources = ["src"])) :=
  ⟨by decide, c10_sources_default (Store.mk [] []) sampleArgs ["src"] (by decide)⟩

/-! Statistics (C2). -/

/-- C2: on a store where every outcome is pending, correct or incorrect and
at least one record is evaluated, accuracy is
`|correct within evaluated| / |evaluated| * 100` and the Brier score is the
mean over evaluated records of `(confidence/100 − indicator)²`, the
indicator being 1 for a correct record and 0 for an incorrect one. -/
theorem c2_stats_accuracy_brier (preds : List Prediction)
    (hout : ∀ p ∈ preds,
      p.outcome = "pending" ∨ p.outcome = "correct" ∨ p.outcome = "incorrect")
    (hne : preds.filter (fun p => p.outcome != "pending") ≠ []) :
    (show_stats preds).accuracy
      = (((preds.filter (fun p => p.outcome != "pending")).filter
            (fun p => p.outcome == "correct")).length : ℚ)
        / ((preds.filter (fun p => p.outcome != "pending")).length : ℚ) * 100
    ∧ (show_stats preds).brier_score
      = ((preds.filter (fun p => p.outcome != "pending")).map
            (fun p => ((p.confidence : ℚ) / 100
              - (if p.outcome == "correct" then 1 else 0)) ^ 2)).sum
        / ((preds.filter (fun p => p.outcome != "pending")).length : ℚ) := by
  have hie : (preds.filter (fun p => p.outcome != "pending")).isEmpty = false := by
    cases hx : preds.filter (fun p => p.outcome != "pending") with
    | nil => exact absurd hx hne
    | cons a l => rfl
  have hcc : (preds.filter (fun p => p.outcome != "pending")).filter
        (fun p => p.outcome == "correct")
      = preds.filter (fun p => p.outcome == "correct") := by
    rw [List.filter_filter]
    refine List.filter_congr ?_
    intro a _
    cases h : a.outcome == "correct"
    · simp
    · have ha : a.outcome = "correct" := by simpa using h
      simp [ha]
  have hbr : (preds.filter (fun p => p.outcome != "pending")).map brierTerm
      = (preds.filter (fun p => p.outcome != "pending")).map
          (fun p => ((p.confidence : ℚ) / 100
            - (if p.outcome == "correct" then 1 else 0)) ^ 2) :=
    List.map_congr_left (fun p _ => rfl)
  constructor
  · show (if (preds.filter (fun p => p.outcome != "pending")).isEmpty
          then (0 : ℚ)
          else ((preds.filter (fun p => p.outcome == "correct")).length : ℚ)
            / ((preds.filter (fun p => p.outcome != "pending")).length : ℚ) * 100) = _
    rw [hie, if_neg Bool.false_ne_true, ← hcc]
  · show (if (preds.filter (fun p => p.outcome != "pending")).isEmpty
          then (0 : ℚ)
          else ((preds.filter (fun p => p.outcome != "pending")).map brierTerm).sum
            / ((preds.filter (fun p => p.outcome != "pending")).length : ℚ)) = _
    rw [hie, if_neg Bool.false_ne_true, hbr]

/-- Witness for C2: the spec's two-record store (confidence 80 correct,
confidence 60 incorrect) has accuracy 50 and Brier score 1/5 = 0.2. -/
theorem c2_stats_accuracy_brier_witness :
    ((∀ p ∈ [sampleCorrect, sampleIncorrect],
        p.outcome = "pending" ∨ p.outcome = "correct" ∨ p.outcome = "incorrect")
      ∧ [sampleCorrect, sampleIncorrect].filter (fun p => p.outcome != "pending") ≠ [])
    ∧ (show_stats [sampleCorrect, sampleIncorrect]).accuracy = 50
    ∧ (show_stats [sampleCorrect, sampleIncorrect]).brier_score = 1/5 := by
  have h := c2_stats_accuracy_brier [sampleCorrect, sampleIncorrect] (by decide) (by decide)
  have hev : [sampleCorrect, sampleIncorrect].filter (fun p => p.outcome != "pending")
      = [sampleCorrect, sampleIncorrect] := by decide
  have hco : [sampleCorrect, sampleIncorrect].filter (fun p => p.outcome == "correct")
      = [sampleCorrect] := by decide
  refine ⟨⟨by decide, by decide⟩, ?_, ?_⟩
  · rw [h.1, hev, hco]
    norm_num
  · rw [h.2, hev]
    norm_num [sampleCorrect, sampleIncorrect, sampleRec,
      if_neg (show ¬("incorrect" = "correct") from by decide)]

/-! Pending list: ordering and stability (C7). -/

/-- `leDue` is transitive. -/
theorem leDue_trans : ∀ a b c : Prediction, leDue a b → leDue b c → leDue a c := by
  intro a b c hab hbc
  simp only [leDue, decide_eq_true_eq] at *
  omega

/-- `leDue` is total. -/
theorem leDue_total : ∀ a b : Prediction, leDue a b || leDue b a := by
  intro a b
  simp only [leDue, Bool.or_eq_true, decide_eq_true_eq]
  omega

/-- Dropping the urgency annotations from `list_pending` leaves the sorted
pending list. -/
theorem list_pending_fst (preds : List Prediction) (now : Now) :
    (list_pending preds now).map Prod.fst = pendingSorted preds := by
  unfold list_pending
  rw [List.map_map]
  rw [show (Prod.fst ∘ fun p : Prediction => (p, statusTag p now)) = id from rfl,
    List.map_id]

/-- C7: `list_pending` presents exactly the records with outcome `pending`,
in ascending due-date order (in the model the date order coincides with the
lexicographic order on the fixed-format ISO strings that the code compares),
and the sort is stable: records with equal due dates keep their relative
insertion order. -/
theorem c7_list_pending_sorted (preds : List Prediction) (now : Now) :
    ((list_pending preds now).map Prod.fst).Perm
        (preds.filter (fun p => p.outcome == "pending"))
    ∧ ((list_pending preds now).map Prod.fst).Pairwise
        (fun a b => a.due_date ≤ b.due_date)
    ∧ ∀ d : ℤ, ((list_pending preds now).map Prod.fst).filter
          (fun p => p.due_date == d)
        = (preds.filter (fun p => p.outcome == "pending")).filter
          (fun p => p.due_date == d) := by
  rw [list_pending_fst]
  refine ⟨List.mergeSort_perm _ _, ?_, ?_⟩
  · have h := @List.sorted_mergeSort Prediction leDue leDue_trans leDue_total
      (preds.filter (fun p => p.outcome == "pending"))
    exact h.imp (fun hab => by simpa [leDue] using hab)
  · intro d
    set base := preds.filter (fun p => p.outcome == "pending") with hbase
    set c := base.filter (fun p => p.due_date == d) with hc
    have hmem : ∀ p ∈ c, p.due_date = d := by
      intro p hp
      simpa using List.of_mem_filter hp
    have hpair : c.Pairwise (fun a b => leDue a b = true) := by
      refine List.pairwise_of_forall_mem_list ?_
      intro a ha b hb
      simp [leDue, hmem a ha, hmem b hb]
    have hsub : c.Sublist (pendingSorted preds) :=
      List.sublist_mergeSort leDue_trans leDue_total hpair (List.filter_sublist base)
    have hsub2 : (c.filter (fun p => p.due_date == d)).Sublist
        ((pendingSorted preds).filter (fun p => p.due_date == d)) :=
      hsub.filter _
    rw [show c.filter (fun p => p.due_date == d) = c from
      List.filter_eq_self.mpr (fun a ha => by simpa using hmem a ha)] at hsub2
    have hperm : ((pendingSorted preds).filter (fun p => p.due_date == d)).Perm c :=
      (List.mergeSort_perm base leDue).filter _
    exact (hsub2.eq_of_length hperm.length_eq.symm).symm

/-! Id generation (C1). -/

/-- `startswith` accepts any extension of the tested head. -/
theorem startswith_append (pre rest : List Char) :
    startswith (pre ++ rest) pre = true := by
  induction pre with
  | nil => cases rest with
    | nil => rfl
    | cons c cs => rfl
  | cons c pre ih => simp [startswith, ih]

/-- The fuelled digit expansion is correct once the fuel dominates. -/
theorem ofDigits_decDigitsAux :
    ∀ fuel n : ℕ, n ≤ fuel → Nat.ofDigits 10 (decDigitsAux fuel n) = n := by
  intro fuel
  induction fuel with
  | zero =>
    intro n hn
    obtain rfl : n = 0 := Nat.le_zero.mp hn
    simp [decDigitsAux, Nat.ofDigits]
  | succ fuel ih =>
    intro n hn
    match n with
    | 0 => simp [decDigitsAux, Nat.ofDigits]
    | m + 1 =>
      rw [decDigitsAux, Nat.ofDigits_cons, ih ((m + 1) / 10) (by omega)]
      omega

/-- Every produced digit is below 10. -/
theorem decDigitsAux_lt :
    ∀ fuel n d : ℕ, d ∈ decDigitsAux fuel n → d < 10 := by
  intro fuel
  induction fuel with
  | zero => intro n d h; exact absurd h (by simp [decDigitsAux])
  | succ fuel ih =>
    intro n d h
    match n with
    | 0 => exact absurd h (by simp [decDigitsAux])
    | m + 1 =>
      rw [decDigitsAux] at h
      rcases List.mem_cons.mp h with h1 | h2
      · omega
      · exact ih _ d h2

/-- Digit characters decode back to their value. -/
theorem decCharVal_decDigitChar : ∀ d : ℕ, d < 10 → decCharVal (decDigitChar d) = d := by
  decide

/-- `unpad` inverts the plain decimal rendering. -/
theorem unpad_decRepr (n : ℕ) : unpad (decRepr n) = n := by
  by_cases h : n = 0
  · subst h; decide
  · rw [decRepr, if_neg h]
    have hmap : (decDigitsAux n n).map (decCharVal ∘ decDigitChar) = decDigitsAux n n := by
      have hid : ∀ d ∈ decDigitsAux n n, (decCharVal ∘ decDigitChar) d = id d := by
        intro d hd
        exact decCharVal_decDigitChar d (decDigitsAux_lt n n d hd)
      rw [List.map_congr_left hid, List.map_id]
    calc unpad (((decDigitsAux n n).map decDigitChar).reverse)
        = Nat.ofDigits 10
            ((((decDigitsAux n n).map decDigitChar).reverse.map decCharVal).reverse) := rfl
      _ = Nat.ofDigits 10 ((decDigitsAux n n).map (decCharVal ∘ decDigitChar)) := by
            rw [List.map_reverse, List.reverse_reverse, List.map_map]
      _ = n := by rw [hmap]; exact ofDigits_decDigitsAux n n le_rfl

/-- A block of zero digits contributes nothing. -/
theorem ofDigits_replicate_zero : ∀ k : ℕ, Nat.ofDigits 10 (List.replicate k 0) = 0 := by
  intro k
  induction k with
  | zero => rfl
  | succ k ih => rw [List.replicate_succ, Nat.ofDigits_cons, ih]

/-- `unpad` inverts the zero-padded decimal rendering. -/
theorem unpad_pad3 (n : ℕ) : unpad (pad3 n) = n := by
  have h0 : decCharVal '0' = 0 := rfl
  unfold pad3 unpad
  rw [List.map_append, List.reverse_append, List.map_replicate, h0,
    List.reverse_replicate, Nat.ofDigits_append, ofDigits_replicate_zero]
  simpa [unpad] using unpad_decRepr n

/-- The padded rendering is injective (no two counts collide). -/
theorem pad3_injective {a b : ℕ} (h : pad3 a = pad3 b) : a = b := by
  have h2 := congrArg unpad h
  rwa [unpad_pad3, unpad_pad3] at h2

/-- Distinct sequence numbers give distinct ids. -/
theorem mkId_inj {y a b : ℕ} (h : mkId y a = mkId y b) : a = b := by
  unfold mkId at h
  have h2 := List.append_cancel_left h
  injection h2 with _ h3
  exact pad3_injective h3

/-- When every stored id matches the year's pattern, `generate_id` yields
sequence number `length + 1`. -/
theorem generate_id_all_match (preds : List Prediction) (y : ℕ)
    (h : ∀ p ∈ preds, startswith p.id (yearTag y) = true) :
    generate_id preds y = mkId y (preds.length + 1) := by
  simp only [generate_id, mkId, List.filter_eq_self.mpr h]

/-- Iterated adds extend the id sequence one number at a time. -/
theorem addMany_ids (y : ℕ) :
    ∀ (calls : List AddArgs) (s : Store) (k : ℕ),
    (∀ a ∈ calls, a.now.year = y) →
    s.predictions.map Prediction.id = (List.range k).map (fun i => mkId y (i + 1)) →
    (addMany s calls).predictions.map Prediction.id
      = (List.range (k + calls.length)).map (fun i => mkId y (i + 1)) := by
  intro calls
  induction calls with
  | nil => intro s k _ hids; simpa using hids
  | cons a rest ih =>
    intro s k hy hids
    have hya : a.now.year = y := hy a (List.mem_cons_self a rest)
    have hstart : ∀ p ∈ s.predictions, startswith p.id (yearTag y) = true := by
      intro p hp
      have hmem : p.id ∈ (List.range k).map (fun i => mkId y (i + 1)) := by
        rw [← hids]; exact List.mem_map_of_mem Prediction.id hp
      obtain ⟨i, _, hEq⟩ := List.mem_map.mp hmem
      rw [← hEq]
      exact startswith_append (yearTag y) ('-' :: pad3 (i + 1))
    have hlen : s.predictions.length = k := by
      have h1 := congrArg List.length hids
      simpa using h1
    have hnew : (add_prediction s a).1.predictions.map Prediction.id
        = (List.range (k + 1)).map (fun i => mkId y (i + 1)) := by
      show (s.predictions ++ [newPrediction s.predictions a]).map Prediction.id
          = (List.range (k + 1)).map (fun i => mkId y (i + 1))
      rw [List.map_append, hids, List.range_succ, List.map_append]
      congr 1
      show [generate_id s.predictions a.now.year] = [mkId y (k + 1)]
      rw [hya, generate_id_all_match s.predictions y hstart]
      rw [hlen]
    have hrest := ih (add_prediction s a).1 (k + 1)
      (fun b hb => hy b (List.mem_cons_of_mem a hb)) hnew
    show (addMany (add_prediction s a).1 rest).predictions.map Prediction.id
        = (List.range (k + (a :: rest).length)).map (fun i => mkId y (i + 1))
    rw [List.length_cons, show k + (rest.length + 1) = (k + 1) + rest.length from by omega]
    exact hrest

/-- C1: n consecutive adds in the same calendar year, starting from the
empty store, generate ids exactly `PRED-<year>-001 … PRED-<year>-00n` in
order — the sequence number of each new record is 1 + the count of existing
records carrying the year's id format — with no gaps and no repeats. -/
theorem c1_ids_from_empty (calls : List AddArgs) (year : ℕ)
    (hy : ∀ a ∈ calls, a.now.year = year) :
    ((addMany (Store.mk [] []) calls).predictions.map Prediction.id
        = (List.range calls.length).map (fun i => mkId year (i + 1)))
    ∧ ((addMany (Store.mk [] []) calls).predictions.map Prediction.id).Nodup := by
  have h := addMany_ids year calls (Store.mk [] []) 0 hy (by simp)
  rw [Nat.zero_add] at h
  refine ⟨h, ?_⟩
  rw [h]
  refine List.Nodup.map ?_ (List.nodup_range _)
  intro i j hij
  have := mkId_inj hij
  omega

/-- Witness for C1: two consecutive adds in 2025 give PRED-2025-001 and
PRED-2025-002. -/
theorem c1_ids_from_empty_witness :
    (∀ a ∈ [sampleArgs, sampleArgs], a.now.year = 2025)
    ∧ ((addMany (Store.mk [] []) [sampleArgs, sampleArgs]).predictions.map Prediction.id
        = (List.range 2).map (fun i => mkId 2025 (i + 1)))
    ∧ ((addMany (Store.mk [] []) [sampleArgs, sampleArgs]).predictions.map Prediction.id).Nodup := by
  have h := c1_ids_from_empty [sampleArgs, sampleArgs] 2025 (by decide)
  exact ⟨by decide, h.1, h.2⟩

/-! Urgency annotations (C3). -/

/-- C3 (code bug): the loop computes `days_left` from the *datetime*
difference, which `timedelta.days` floors, so at noon of a record's due day
`days_left = -1` and the record is annotated "[OVERDUE]" instead of
"[DUE TODAY]", and a record due tomorrow is annotated "[DUE TODAY]" instead
of "due soon"; the spec's `due_date − current_date` rule disagrees at any
time after midnight. -/
theorem c3_datetime_floor_bug :
    days_left sampleRec.due_date sampleNoon = -1
    ∧ days_left sampleDueTomorrow.due_date sampleNoon = 0
    ∧ list_pending [sampleRec, sampleDueTomorrow] sampleNoon
      = [(sampleRec, " [OVERDUE]"), (sampleDueTomorrow, " [DUE TODAY]")] := by
  refine ⟨by decide, by decide, ?_⟩
  have hf : [sampleRec, sampleDueTomorrow].filter (fun p => p.outcome == "pending")
      = [sampleRec, sampleDueTomorrow] := by decide
  have hs : ([sampleRec, sampleDueTomorrow]).mergeSort leDue
      = [sampleRec, sampleDueTomorrow] :=
    List.mergeSort_of_sorted (by decide)
  simp only [list_pending, pendingSorted, hf, hs, List.map_cons, List.map_nil]
  rw [show statusTag sampleRec sampleNoon = " [OVERDUE]" from by decide,
    show statusTag sampleDueTomorrow sampleNoon = " [DUE TODAY]" from by decide]

end PredictionTracker
